import Mathlib

/-!
Shallow embedding of the PianoMiles rhythm-game core (src/main.py) and
proofs about it.

Numeric conventions: Python floats (beat times, tile positions, tile
speeds, frame deltas) are modelled by rationals; pixel sizes and
coordinates that Python keeps as ints are modelled by integers; columns,
miss counts and indices by naturals.  Randomness is injected:
random.choice over a nonempty list is modelled by indexing the list with
an arbitrary stream of naturals (one entry per loop iteration, reduced
modulo the list length), so every theorem quantifies over the stream.
-/

/-- A scheduled tile produced by generate_level: the Python dict
with keys time and column. -/
structure ScheduledTarget where
  time : ℚ
  column : ℕ
deriving DecidableEq, Repr, Inhabited

/-- The Python builtin range(0, stop, step) for step ≥ 1: the multiples
of step below stop, in increasing order. -/
def pyRange (stop step : ℕ) : List ℕ :=
  (List.range ((stop + step - 1) / step)).map (· * step)

/-- The column choice of the generate_level loop body (src/main.py lines
77-83): random.choice over all columns when the beat index i is 0, over
the columns other than the previously appended entry's column when
i > 0.  The getLast? none fallback is dead code: the Python level[-1] is
only evaluated when the list is nonempty. -/
def choose_column (rand : ℕ → ℕ) (num_columns i : ℕ)
    (level : List ScheduledTarget) : ℕ :=
  let possible_columns :=
    if 0 < i then
      match level.getLast? with
      | some prev => (List.range num_columns).filter (fun c => decide (c ≠ prev.column))
      | none => List.range num_columns
    else List.range num_columns
  possible_columns.getD (rand i % possible_columns.length) 0

/-- Loop of generate_level (src/main.py lines 74-84): for each beat
index i (taken from range(0, len(beat_times), beat_skip)) append a dict
with the beat time and the chosen column. -/
def generate_level_go (rand : ℕ → ℕ) (beat_times : List ℚ) (num_columns : ℕ) :
    List ℕ → List ScheduledTarget → List ScheduledTarget
  | [], level => level
  | i :: rest, level =>
    generate_level_go rand beat_times num_columns rest
      (level ++ [⟨beat_times.getD i 0, choose_column rand num_columns i level⟩])

/-- generate_level (src/main.py lines 62-86).  Total: on an empty input
the loop body never runs and the empty level is returned; no exception
is raised anywhere in the body. -/
def generate_level (rand : ℕ → ℕ) (beat_times : List ℚ)
    (num_columns : ℕ := 4) (beat_skip : ℕ := 1) : List ScheduledTarget :=
  generate_level_go rand beat_times num_columns (pyRange beat_times.length beat_skip) []

/-- Outcome of load_mp3 + extract_beats as consumed by
run_piano_tiles_clone: failure covers both a load error (y is None) and a
beat-extraction error (tempo is None); success carries the tempo and the
(possibly empty) beat-time list. -/
inductive BeatExtraction where
  | failure
  | success (tempo : ℚ) (beat_times : List ℚ)
deriving DecidableEq, Repr

/-- The part of run_piano_tiles_clone (src/main.py lines 727-748) that
runs before the main game loop: on extraction failure the function
returns (no game loop); on success it always builds the level with
generate_level and proceeds to the game loop with it (none = session
ended before the loop, some level = the loop is entered). -/
def run_pre_game_loop (rand : ℕ → ℕ) (beat_skip : ℕ) :
    BeatExtraction → Option (List ScheduledTarget)
  | .failure => none
  | .success _ beat_times => some (generate_level rand beat_times 4 beat_skip)

/-- Game geometry and timing constants of main_game_loop
(src/main.py lines 407-433), with the source's default values. -/
structure Cfg where
  screen_width : ℤ := 800
  screen_height : ℤ := 600
  num_columns : ℕ := 4
  tile_height : ℤ := 100
  hit_time : ℚ := 2
deriving DecidableEq, Repr

/-- tile_width = screen_width // num_columns (Python floor division). -/
def Cfg.tile_width (cfg : Cfg) : ℤ := Int.fdiv cfg.screen_width cfg.num_columns

/-- tile_speed = screen_height / hit_time (Python true division). -/
def Cfg.tile_speed (cfg : Cfg) : ℚ := (cfg.screen_height : ℚ) / cfg.hit_time

/-- hit_zone_y = screen_height - tile_height (src/main.py line 320). -/
def Cfg.hit_zone_y (cfg : Cfg) : ℤ := cfg.screen_height - cfg.tile_height

/-- A falling tile (class Tile, src/main.py lines 172-204).  All
constructor-stored fields are kept; x is column * tile_width and y starts
at -tile_height; the hit flag is written False and never set anywhere. -/
structure Tile where
  column : ℕ
  spawn_time : ℚ
  tile_speed : ℚ
  tile_width : ℤ
  tile_height : ℤ
  screen_height : ℤ
  num_columns : ℕ
  x : ℤ
  y : ℚ
  hit : Bool
deriving DecidableEq, Repr

/-- Tile.__init__ (src/main.py lines 173-195). -/
def Tile.init (column : ℕ) (spawn_time tile_speed : ℚ)
    (tile_width tile_height screen_height : ℤ) (num_columns : ℕ) : Tile :=
  { column := column
    spawn_time := spawn_time
    tile_speed := tile_speed
    tile_width := tile_width
    tile_height := tile_height
    screen_height := screen_height
    num_columns := num_columns
    x := (column : ℤ) * tile_width
    y := -(tile_height : ℚ)
    hit := false }

/-- Tile.update (src/main.py lines 197-204): y += tile_speed * delta_time,
with delta_time used exactly as passed (no clamping anywhere). -/
def Tile.update (t : Tile) (delta_time : ℚ) : Tile :=
  { t with y := t.y + t.tile_speed * delta_time }

/-- A feedback record appended to the animations list: either a circle
(hit, wrong-tap or boundary-miss marker, src/main.py lines 333-341,
351-359, 492-500) or a milestone banner (lines 524-535).  Fields kept:
position, radius/alpha resp. start time and duration, and the RGB color
(the milestone text is identified by its threshold). -/
inductive Anim where
  | circle (x : ℤ) (y : ℚ) (radius alpha : ℚ) (color : ℕ × ℕ × ℕ)
  | milestone (threshold : ℕ) (x y : ℤ) (start_time duration : ℚ)
deriving DecidableEq, Repr

/-- key_to_column (src/main.py lines 303-308): pygame keycodes of q, w,
e, r (their ASCII codes) mapped to columns 0-3; all other keys unmapped. -/
def key_to_column (key : ℕ) : Option ℕ :=
  if key = 113 then some 0
  else if key = 119 then some 1
  else if key = 101 then some 2
  else if key = 114 then some 3
  else none

/-- The scan of handle_tile_tap (src/main.py lines 327-345): walk the
active tiles in list order (oldest spawned first), return the first one
in the pressed column whose y lies in the hit window together with the
list with exactly that tile removed; none when no tile matches.  This is
the Python for-loop over tiles[:] with tiles.remove(tile) and break. -/
def scanTiles (pressed : ℕ) (lo hi : ℚ) : List Tile → Option (Tile × List Tile)
  | [] => none
  | t :: ts =>
    if t.column = pressed ∧ lo ≤ t.y ∧ t.y ≤ hi then some (t, ts)
    else
      match scanTiles pressed lo hi ts with
      | some (u, rest) => some (u, t :: rest)
      | none => none

/-- handle_tile_tap (src/main.py lines 286-362) acting on the data it
mutates: the tiles list, the score cell, and the animations list.  An
unmapped key falls outside the `if event.key in key_to_column` guard and
changes nothing.  A mapped key either resolves the first matching tile
(score + 1, blue hit circle at the tile) or is a wrong tap (score - 1,
red miss circle at the bottom of the pressed column).  The hit window is
[hit_zone_y - 300, hit_zone_y + 300] with hit_zone_y = screen_height -
tile_height and the buffer hardcoded to 300. -/
def handle_tile_tap (cfg : Cfg) (key : ℕ) (tiles : List Tile) (score : ℤ)
    (animations : List Anim) : List Tile × ℤ × List Anim :=
  match key_to_column key with
  | none => (tiles, score, animations)
  | some pressed_column =>
    let hit_zone_start : ℚ := (cfg.hit_zone_y : ℚ) - 300
    let hit_zone_end : ℚ := (cfg.hit_zone_y : ℚ) + 300
    match scanTiles pressed_column hit_zone_start hit_zone_end tiles with
    | some (tile, rest) =>
      (rest, score + 1,
        animations ++ [Anim.circle (tile.x + Int.fdiv tile.tile_width 2)
          (tile.y + ((Int.fdiv tile.tile_height 2 : ℤ) : ℚ)) 30 255 (0, 0, 255)])
    | none =>
      (tiles, score - 1,
        animations ++ [Anim.circle
          ((pressed_column : ℤ) * cfg.tile_width + Int.fdiv cfg.tile_width 2)
          ((cfg.hit_zone_y : ℤ) : ℚ) 30 255 (255, 0, 0)])

/-- Result of one pass of the missed-tile detection loop: either the loop
ran to completion (ok) or it hit max_misses and the game ended
immediately, leaving the rest of the tiles unprocessed (gameOver). -/
inductive DetectResult where
  | ok (tiles : List Tile) (misses : ℕ) (animations : List Anim)
  | gameOver (tiles : List Tile) (misses : ℕ) (animations : List Anim)
deriving DecidableEq, Repr

/-- The red circle appended when a tile crosses the bottom boundary
(src/main.py lines 492-500). -/
def boundaryMissAnim (t : Tile) : Anim :=
  Anim.circle (t.x + Int.fdiv t.tile_width 2)
    (t.y + ((Int.fdiv t.tile_height 2 : ℤ) : ℚ)) 30 255 (255, 0, 0)

/-- The missed-tile detection loop of main_game_loop (src/main.py lines
486-515): iterate over a snapshot of the tiles list; every tile with
y > screen_height is removed from the live list, misses is incremented
and a miss circle appended; immediately after an increment, if
misses ≥ max_misses the game is over and the loop stops (the remaining
snapshot entries are left in the live list untouched). -/
def detect_missed_tiles (screen_height : ℤ) (max_misses : ℕ) :
    List Tile → ℕ → List Anim → DetectResult
  | [], misses, animations => .ok [] misses animations
  | t :: ts, misses, animations =>
    if (screen_height : ℚ) < t.y then
      let misses' := misses + 1
      let animations' := animations ++ [boundaryMissAnim t]
      if max_misses ≤ misses' then .gameOver ts misses' animations'
      else
        match detect_missed_tiles screen_height max_misses ts misses' animations' with
        | .ok ts' m' a' => .ok ts' m' a'
        | .gameOver ts' m' a' => .gameOver ts' m' a'
    else
      match detect_missed_tiles screen_height max_misses ts misses animations with
      | .ok ts' m' a' => .ok (t :: ts') m' a'
      | .gameOver ts' m' a' => .gameOver (t :: ts') m' a'

/-- The fixed milestone thresholds (src/main.py line 456). -/
def MILESTONES : List ℕ := [100, 200, 300, 400, 500]

/-- Body of the milestone loop (src/main.py lines 518-535) for a single
threshold: when score ≥ milestone and it was not yet achieved, record it
and append the gold milestone banner (2.0 s duration, centered). -/
def check_milestones_step (cfg : Cfg) (now : ℚ) (score : ℤ)
    (st : List ℕ × List Anim) (milestone : ℕ) : List ℕ × List Anim :=
  if (milestone : ℤ) ≤ score ∧ milestone ∉ st.1 then
    (st.1 ++ [milestone],
      st.2 ++ [Anim.milestone milestone (Int.fdiv cfg.screen_width 2)
        (Int.fdiv cfg.screen_height 2) now 2])
  else st

/-- The milestone loop of main_game_loop (src/main.py lines 517-535):
fold the per-threshold body over the fixed MILESTONES list.  The wall
clock time.time() stored as the banner's start time is represented by
the elapsed time, which differs from it by the constant session start
time. -/
def check_milestones (cfg : Cfg) (now : ℚ) (score : ℤ)
    (achieved_milestones : List ℕ) (animations : List Anim) : List ℕ × List Anim :=
  MILESTONES.foldl (check_milestones_step cfg now score) (achieved_milestones, animations)

/-- update_animations (src/main.py lines 364-405), gameplay-relevant
part: circles shrink 200 radius/s and fade 255 alpha/s and are removed
once radius or alpha reaches 0; milestone banners are removed once their
duration has elapsed.  Surface construction and alpha clamping are
rendering only and are dropped. -/
def update_anim (now delta_time : ℚ) (a : Anim) : Option Anim :=
  match a with
  | .circle x y radius alpha color =>
    let radius' := radius - 200 * delta_time
    let alpha' := alpha - 255 * delta_time
    if radius' ≤ 0 ∨ alpha' ≤ 0 then none
    else some (.circle x y radius' alpha' color)
  | .milestone m x y start_time duration =>
    if duration ≤ now - start_time then none
    else some (.milestone m x y start_time duration)

/-- The in-place removal loop over a snapshot of the animations list,
as a filterMap. -/
def update_animations (now delta_time : ℚ) (animations : List Anim) : List Anim :=
  animations.filterMap (update_anim now delta_time)

/-- A tile as main_game_loop builds it at spawn (src/main.py lines
474-476): Tile(column, time, tile_speed, tile_width, tile_height,
screen_height, num_columns). -/
def mkSpawnTile (cfg : Cfg) (g : ScheduledTarget) : Tile :=
  Tile.init g.column g.time cfg.tile_speed cfg.tile_width cfg.tile_height
    cfg.screen_height cfg.num_columns

/-- The tile-generation while loop of main_game_loop (src/main.py lines
473-478): while current_tile_index < len(level) and the next scheduled
time is ≤ the elapsed time, append a fresh Tile and advance the index. -/
def spawn_tiles (cfg : Cfg) (level : List ScheduledTarget) (current_time : ℚ)
    (idx : ℕ) (tiles : List Tile) : List Tile × ℕ :=
  if h : idx < level.length then
    if level[idx].time ≤ current_time then
      spawn_tiles cfg level current_time (idx + 1) (tiles ++ [mkSpawnTile cfg level[idx]])
    else (tiles, idx)
  else (tiles, idx)
termination_by level.length - idx

/-- The mutable state of main_game_loop threaded through one frame. -/
structure LoopState where
  tiles : List Tile
  animations : List Anim
  current_tile_index : ℕ
  score : ℤ
  misses : ℕ
  achieved_milestones : List ℕ
deriving DecidableEq, Repr

/-- The per-frame inputs of one iteration of the while loop: the KEYDOWN
keycodes delivered this frame, the elapsed time, the frame clock delta,
and whether pygame.mixer.music.get_busy() is still true.  The external
QUIT event (window close) is outside the gameplay model. -/
structure FrameInput where
  events : List ℕ
  current_time : ℚ
  delta_time : ℚ
  music_busy : Bool
deriving DecidableEq, Repr

/-- Why the session reached a terminal state: misses hit max_misses
(lines 504-515) or the song finished with no tiles left (lines 600-610). -/
inductive EndReason where
  | maxMisses
  | songEnded
deriving DecidableEq, Repr

/-- Outcome of one frame: continue looping, or terminal (game over
screen shown, loop left). -/
inductive StepResult where
  | next (s : LoopState)
  | terminal (reason : EndReason) (s : LoopState)
deriving DecidableEq, Repr

/-- The KEYDOWN branch of the event loop (src/main.py lines 465-470):
fold handle_tile_tap over this frame's key events.  Only tiles, score
and animations are passed to the handler; misses, the spawn index and
the achieved milestones are untouched. -/
def processEvents (cfg : Cfg) (events : List ℕ) (s : LoopState) : LoopState :=
  events.foldl
    (fun st key =>
      let r := handle_tile_tap cfg key st.tiles st.score st.animations
      { st with tiles := r.1, score := r.2.1, animations := r.2.2 })
    s

/-- One iteration of the while loop of main_game_loop (src/main.py lines
460-610) with the rendering calls dropped: handle key events, spawn due
tiles, advance all tiles by delta_time, detect boundary misses (possibly
ending the game at max_misses, in which case milestones and animation
decay are skipped because the Python function returns there), check
milestones, decay animations, and finally end the game if the music has
stopped and no tiles remain. -/
def main_game_loop_frame (cfg : Cfg) (level : List ScheduledTarget)
    (inp : FrameInput) (s : LoopState) : StepResult :=
  let s1 := processEvents cfg inp.events s
  let sp := spawn_tiles cfg level inp.current_time s1.current_tile_index s1.tiles
  let moved := sp.1.map (fun t => t.update inp.delta_time)
  match detect_missed_tiles cfg.screen_height 5 moved s1.misses s1.animations with
  | .gameOver ts m a =>
    .terminal .maxMisses
      { tiles := ts, animations := a, current_tile_index := sp.2,
        score := s1.score, misses := m, achieved_milestones := s1.achieved_milestones }
  | .ok ts m a =>
    let ms := check_milestones cfg inp.current_time s1.score s1.achieved_milestones a
    let a' := update_animations inp.current_time inp.delta_time ms.2
    let s' : LoopState :=
      { tiles := ts, animations := a', current_tile_index := sp.2,
        score := s1.score, misses := m, achieved_milestones := ms.1 }
    if inp.music_busy = false ∧ ts = [] then .terminal .songEnded s'
    else .next s'

/-- A fixed randomness stream used for concrete instances. -/
def rand0 : ℕ → ℕ := fun _ => 0

/-- The fold over a list of per-frame elapsed times of the
tile-generation loop alone: the spawn phase of a sequence of frames,
accumulating the spawned tiles and the schedule index. -/
def spawn_frames (cfg : Cfg) (level : List ScheduledTarget) :
    List ℚ → List Tile × ℕ → List Tile × ℕ
  | [], st => st
  | t :: ts, st => spawn_frames cfg level ts (spawn_tiles cfg level t st.2 st.1)

/-- The milestone phases of a whole session: fold check_milestones over
the per-frame history of (elapsed time, score) pairs, starting from the
loop's initial empty achieved list and accumulating every banner ever
emitted (no decay, so the second component counts emissions). -/
def milestones_run (cfg : Cfg) (history : List (ℚ × ℤ)) : List ℕ × List Anim :=
  history.foldl (fun st h => check_milestones cfg h.1 h.2 st.1 st.2) ([], [])

/-- The number of animations in a list that are milestone banners for a
given threshold. -/
def milestoneCount (m : ℕ) (animations : List Anim) : ℕ :=
  (animations.filter (fun a =>
    match a with
    | .milestone m' _ _ _ _ => decide (m' = m)
    | .circle _ _ _ _ _ => false)).length

/-- The number of tiles below the bottom boundary. -/
def countOOB (screen_height : ℤ) (tiles : List Tile) : ℕ :=
  (tiles.filter (fun t => decide ((screen_height : ℚ) < t.y))).length

/-- The tiles that survive boundary-miss detection. -/
def survivorTiles (screen_height : ℤ) (tiles : List Tile) : List Tile :=
  tiles.filter (fun t => decide (¬ (screen_height : ℚ) < t.y))

/-- A concrete tile sitting inside the default hit window in column 0. -/
def tileA : Tile :=
  { column := 0, spawn_time := 0, tile_speed := 300, tile_width := 200,
    tile_height := 100, screen_height := 600, num_columns := 4,
    x := 0, y := 500, hit := false }

/-- The loop state carried by either outcome of a frame. -/
def StepResult.stateOf : StepResult → LoopState
  | .next s => s
  | .terminal _ s => s

/-- A concrete tile in column 1, below the hit line but on screen. -/
def tileB : Tile :=
  { column := 1, spawn_time := 0, tile_speed := 300, tile_width := 200,
    tile_height := 100, screen_height := 600, num_columns := 4,
    x := 200, y := 550, hit := false }

/-- The tile list of a frame after event handling, spawning and
movement, just before boundary-miss detection. -/
def frameMoved (cfg : Cfg) (level : List ScheduledTarget) (inp : FrameInput)
    (s : LoopState) : List Tile :=
  ((spawn_tiles cfg level inp.current_time
      (processEvents cfg inp.events s).current_tile_index
      (processEvents cfg inp.events s).tiles).1).map
    (fun t => t.update inp.delta_time)

/-- A concrete tile already past the bottom boundary. -/
def tileC : Tile :=
  { column := 2, spawn_time := 0, tile_speed := 300, tile_width := 200,
    tile_height := 100, screen_height := 600, num_columns := 4,
    x := 400, y := 700, hit := false }

/-- A frame input with no key events. -/
def inp0 : FrameInput :=
  { events := [], current_time := 0, delta_time := 0, music_busy := true }

/-- A state one boundary miss away from the maximum. -/
def sMiss4 : LoopState :=
  { tiles := [tileC], animations := [], current_tile_index := 0,
    score := 0, misses := 4, achieved_milestones := [] }

theorem pyRange_zero (k : ℕ) : pyRange 0 k = [] := by
  rcases k with _ | k
  · rfl
  · have h : k / (k + 1) = 0 := Nat.div_eq_of_lt (by omega)
    simp [pyRange, h]

theorem lt_ceilDiv_iff_mul_lt {n k : ℕ} (hk : 1 ≤ k) (j : ℕ) :
    j < (n + k - 1) / k ↔ j * k < n := by
  constructor
  · intro h
    have h2 : (j + 1) * k ≤ n + k - 1 :=
      (Nat.le_div_iff_mul_le (by omega : 0 < k)).mp h
    have h3 : j * k + k ≤ n + k - 1 := by rw [← Nat.succ_mul]; exact h2
    generalize j * k = a at h3 ⊢
    omega
  · intro h
    have h3 : j * k + k ≤ n + k - 1 := by
      generalize hjk : j * k = a at h ⊢
      omega
    exact (Nat.le_div_iff_mul_le (by omega : 0 < k)).mpr (by rw [Nat.succ_mul]; exact h3)

theorem pyRange_pos_cons {n k : ℕ} (hn : 0 < n) (hk : 1 ≤ k) :
    ∃ rest, pyRange n k = 0 :: rest ∧ ∀ i ∈ rest, 0 < i := by
  have hm : 0 < (n + k - 1) / k :=
    (Nat.le_div_iff_mul_le (by omega : 0 < k)).mpr (by omega)
  obtain ⟨mm, hmm⟩ := Nat.exists_eq_succ_of_ne_zero (Nat.pos_iff_ne_zero.mp hm)
  refine ⟨((List.range mm).map Nat.succ).map (· * k), ?_, ?_⟩
  · rw [pyRange, hmm, List.range_succ_eq_map]
    simp
  · intro i hi
    simp only [List.mem_map, List.mem_range] at hi
    obtain ⟨x, ⟨j, _, rfl⟩, rfl⟩ := hi
    exact Nat.mul_pos (Nat.succ_pos j) (by omega)

theorem generate_level_nil (rand : ℕ → ℕ) (num_columns beat_skip : ℕ) :
    generate_level rand [] num_columns beat_skip = [] := by
  unfold generate_level
  rw [show ([] : List ℚ).length = 0 from rfl, pyRange_zero]
  rfl

/-- C1, counterexample.  The claim says an empty beat-time sequence makes
generate_level fail with EmptyInputError and the caller end the session
before the game loop.  In the source there is no EmptyInputError and no
raise at all: generate_level on the empty list returns the empty level,
and run_piano_tiles_clone proceeds into start screen and game loop with
that empty level (it only returns early when loading or beat extraction
fails, i.e. tempo is None). -/
theorem C1_counterexample :
    generate_level rand0 [] 4 1 = [] ∧
    run_pre_game_loop rand0 1 (.success 120 []) = some [] := by
  refine ⟨generate_level_nil rand0 4 1, ?_⟩
  rw [run_pre_game_loop, generate_level_nil]

/-- C1, amended.  For every empty beat-time sequence, generate_level
returns the empty level without raising any error, and the caller does
not end the session: the game loop is still entered, with an empty
level.  Only a load or beat-extraction failure (tempo None) ends the
session before the game loop. -/
theorem C1_amended (rand : ℕ → ℕ) (num_columns beat_skip : ℕ) (tempo : ℚ) :
    generate_level rand [] num_columns beat_skip = [] ∧
    run_pre_game_loop rand beat_skip (.success tempo []) = some [] ∧
    run_pre_game_loop rand beat_skip .failure = none := by
  refine ⟨generate_level_nil rand num_columns beat_skip, ?_, rfl⟩
  rw [run_pre_game_loop, generate_level_nil]

theorem getD_mod_mem {l : List ℕ} (h : l ≠ []) (k : ℕ) :
    l.getD (k % l.length) 0 ∈ l := by
  have hl : 0 < l.length := List.length_pos.mpr h
  have hk : k % l.length < l.length := Nat.mod_lt _ hl
  rw [List.getD_eq_getD_get?, List.get?_eq_get hk, Option.getD_some]
  exact List.get_mem _ _ _

theorem range_filter_ne_nil {nc : ℕ} (hn : 2 ≤ nc) (c : ℕ) :
    (List.range nc).filter (fun x => decide (x ≠ c)) ≠ [] := by
  rcases eq_or_ne c 0 with rfl | hc
  · refine List.ne_nil_of_mem (a := 1) ?_
    simp only [List.mem_filter, List.mem_range]
    exact ⟨by omega, by decide⟩
  · refine List.ne_nil_of_mem (a := 0) ?_
    simp only [List.mem_filter, List.mem_range]
    exact ⟨by omega, decide_eq_true (Ne.symm hc)⟩

theorem choose_column_spec (rand : ℕ → ℕ) {nc : ℕ} (hn : 2 ≤ nc) (i : ℕ)
    (level : List ScheduledTarget) :
    choose_column rand nc i level < nc ∧
      (∀ prev, 0 < i → level.getLast? = some prev →
        choose_column rand nc i level ≠ prev.column) := by
  have hrange : (List.range nc) ≠ [] :=
    List.ne_nil_of_mem (List.mem_range.mpr (by omega : 0 < nc))
  unfold choose_column
  by_cases h0 : 0 < i
  · cases hlast : level.getLast? with
    | none =>
      simp only [h0, hlast, if_pos]
      refine ⟨List.mem_range.mp (getD_mod_mem hrange _), ?_⟩
      intro prev _ hsome
      exact absurd hsome (by simp)
    | some prev =>
      simp only [h0, hlast, if_pos]
      have hmem := getD_mod_mem (range_filter_ne_nil hn prev.column) (rand i)
      rw [List.mem_filter, List.mem_range] at hmem
      refine ⟨hmem.1, ?_⟩
      intro prev' _ hsome
      obtain rfl := Option.some_inj.mp hsome
      exact of_decide_eq_true hmem.2
  · simp only [h0, if_neg, if_false]
    refine ⟨List.mem_range.mp (getD_mod_mem hrange _), ?_⟩
    intro prev hpos _
    exact hpos.elim

theorem generate_level_go_acc (rand : ℕ → ℕ) (bt : List ℚ) (nc : ℕ) :
    ∀ is level, ∃ ext, generate_level_go rand bt nc is level = level ++ ext := by
  intro is
  induction is with
  | nil => intro level; exact ⟨[], by simp [generate_level_go]⟩
  | cons i rest ih =>
    intro level
    rw [generate_level_go]
    obtain ⟨ext, hext⟩ := ih (level ++ [⟨bt.getD i 0, choose_column rand nc i level⟩])
    exact ⟨[⟨bt.getD i 0, choose_column rand nc i level⟩] ++ ext,
      by rw [hext, List.append_assoc]⟩

theorem generate_level_go_times (rand : ℕ → ℕ) (bt : List ℚ) (nc : ℕ) :
    ∀ is level, (generate_level_go rand bt nc is level).map ScheduledTarget.time
      = level.map ScheduledTarget.time ++ is.map (fun i => bt.getD i 0) := by
  intro is
  induction is with
  | nil => intro level; simp [generate_level_go]
  | cons i rest ih =>
    intro level
    rw [generate_level_go, ih]
    simp

theorem generate_level_go_inv (rand : ℕ → ℕ) (bt : List ℚ) {nc : ℕ} (hn : 2 ≤ nc) :
    ∀ is level, (∀ i ∈ is, 0 < i) → level ≠ [] →
      (∀ g ∈ level, g.column < nc) →
      List.Chain' (fun a b => a.column ≠ b.column) level →
      ((∀ g ∈ generate_level_go rand bt nc is level, g.column < nc) ∧
        List.Chain' (fun a b => a.column ≠ b.column)
          (generate_level_go rand bt nc is level)) := by
  intro is
  induction is with
  | nil => intro level _ _ h2 h3; exact ⟨h2, h3⟩
  | cons i rest ih =>
    intro level hpos hne hcols hchain
    have hi : 0 < i := hpos i (by simp)
    obtain ⟨prev, hprev⟩ : ∃ p, level.getLast? = some p := by
      cases hl : level.getLast? with
      | none => exact absurd (List.getLast?_eq_none_iff.mp hl) hne
      | some p => exact ⟨p, rfl⟩
    have hcc := choose_column_spec rand hn i level
    rw [generate_level_go]
    apply ih
    · intro j hj
      exact hpos j (by simp [hj])
    · simp
    · intro g hg
      rcases List.mem_append.mp hg with h | h
      · exact hcols g h
      · rw [List.mem_singleton] at h
        rw [h]
        exact hcc.1
    · rw [List.chain'_append]
      refine ⟨hchain, List.chain'_singleton _, ?_⟩
      intro x hx y hy
      rw [hprev, Option.mem_def, Option.some_inj] at hx
      rw [List.head?_cons, Option.mem_def, Option.some_inj] at hy
      rw [← hx, ← hy]
      exact Ne.symm (hcc.2 prev hi hprev)

theorem generate_level_cols_chain (rand : ℕ → ℕ) (bt : List ℚ) (nc k : ℕ)
    (hn : 2 ≤ nc) (hk : 1 ≤ k) :
    (∀ g ∈ generate_level rand bt nc k, g.column < nc) ∧
      List.Chain' (fun a b => a.column ≠ b.column) (generate_level rand bt nc k) := by
  rcases eq_or_ne bt ([] : List ℚ) with rfl | hbt
  · rw [generate_level_nil]
    exact ⟨by simp, List.chain'_nil⟩
  · have hlen : 0 < bt.length := List.length_pos.mpr hbt
    obtain ⟨rest, hpy, hrestpos⟩ := pyRange_pos_cons hlen hk
    unfold generate_level
    rw [hpy, generate_level_go]
    refine generate_level_go_inv rand bt hn rest _ hrestpos (by simp) ?_ ?_
    · intro g hg
      simp only [List.nil_append, List.mem_singleton] at hg
      rw [hg]
      exact (choose_column_spec rand hn 0 []).1
    · simp only [List.nil_append]
      exact List.chain'_singleton _

/-- C5: for every injected randomness stream, every beat-time sequence,
every numLanes ≥ 2 and every beatStride ≥ 1: no two consecutive entries
of the generated level share a lane; every lane is one of the numLanes
lanes; each entry directly following another is drawn from the lanes
other than the previous entry's lane; and (first-lane support) for every
lane c there is a random draw under which the first emitted target gets
lane c, its time being the first beat. -/
theorem generate_level_no_repeat (rand : ℕ → ℕ) (bt : List ℚ) (nc k : ℕ)
    (hn : 2 ≤ nc) (hk : 1 ≤ k) :
    List.Chain' (fun a b => a.column ≠ b.column) (generate_level rand bt nc k) ∧
    (∀ g ∈ generate_level rand bt nc k, g.column < nc) ∧
    (∀ j a b, (generate_level rand bt nc k).get? j = some a →
      (generate_level rand bt nc k).get? (j + 1) = some b →
      b.column ≠ a.column ∧ b.column < nc) ∧
    (bt ≠ [] → ∀ c, c < nc →
      ∃ r, (generate_level r bt nc k).head? = some ⟨bt.getD 0 0, c⟩) := by
  obtain ⟨hmem, hchain⟩ := generate_level_cols_chain rand bt nc k hn hk
  refine ⟨hchain, hmem, ?_, ?_⟩
  · intro j a b ha hb
    obtain ⟨hjb, hgetb⟩ := List.get?_eq_some.mp hb
    obtain ⟨hja, hgeta⟩ := List.get?_eq_some.mp ha
    have hrel := List.chain'_iff_get.mp hchain j (by omega)
    rw [hgeta, hgetb] at hrel
    exact ⟨Ne.symm hrel, hmem b (List.get?_mem hb)⟩
  · intro hbt c hclt
    refine ⟨fun _ => c, ?_⟩
    have hlen : 0 < bt.length := List.length_pos.mpr hbt
    obtain ⟨rest, hpy, _⟩ := pyRange_pos_cons hlen hk
    unfold generate_level
    rw [hpy, generate_level_go]
    obtain ⟨ext, hext⟩ := generate_level_go_acc (fun _ => c) bt nc rest
      ([] ++ [⟨bt.getD 0 0, choose_column (fun _ => c) nc 0 []⟩])
    rw [hext]
    have hcc : choose_column (fun _ => c) nc 0 [] = c := by
      unfold choose_column
      simp only [lt_irrefl, if_false, List.length_range]
      rw [Nat.mod_eq_of_lt hclt, List.getD_eq_getElem _ _ (by simpa using hclt),
        List.getElem_range]
    simp [hcc]

/-- Witness for generate_level_no_repeat at a concrete input. -/
theorem generate_level_no_repeat_witness :
    (2 ≤ 4 ∧ 1 ≤ 1) ∧
      List.Chain' (fun a b => a.column ≠ b.column)
        (generate_level rand0 [0, 1, 2] 4 1) :=
  ⟨⟨by decide, by decide⟩,
    (generate_level_no_repeat rand0 [0, 1, 2] 4 1 (by decide) (by decide)).1⟩

/-- C6: for every beat-time sequence and every beatStride ≥ 1, the
generated times are exactly the input entries at indices 0, beatStride,
2 * beatStride, ... (the multiples of beatStride below the length, which
is what pyRange lists), in order; and a non-decreasing input yields
non-decreasing output times. -/
theorem generate_level_beat_selection (rand : ℕ → ℕ) (bt : List ℚ) (nc k : ℕ)
    (hk : 1 ≤ k) :
    (generate_level rand bt nc k).map ScheduledTarget.time
      = (pyRange bt.length k).map (fun i => bt.getD i 0) ∧
    (∀ j, (pyRange bt.length k).get? j
      = if j * k < bt.length then some (j * k) else none) ∧
    (bt.Pairwise (· ≤ ·) →
      ((generate_level rand bt nc k).map ScheduledTarget.time).Pairwise (· ≤ ·)) := by
  have htimes : (generate_level rand bt nc k).map ScheduledTarget.time
      = (pyRange bt.length k).map (fun i => bt.getD i 0) := by
    unfold generate_level
    rw [generate_level_go_times]
    simp
  have hget : ∀ j, (pyRange bt.length k).get? j
      = if j * k < bt.length then some (j * k) else none := by
    intro j
    by_cases hj : j * k < bt.length
    · have hjm : j < (bt.length + k - 1) / k := (lt_ceilDiv_iff_mul_lt hk j).mpr hj
      rw [if_pos hj]
      unfold pyRange
      rw [List.get?_map, List.get?_range hjm]
      rfl
    · have hjm : ¬ j < (bt.length + k - 1) / k :=
        fun h => hj ((lt_ceilDiv_iff_mul_lt hk j).mp h)
      rw [if_neg hj]
      unfold pyRange
      exact List.get?_eq_none.mpr (by simpa using by omega)
  refine ⟨htimes, hget, ?_⟩
  intro hbt
  rw [htimes]
  have hmemlt : ∀ i ∈ pyRange bt.length k, i < bt.length := by
    intro i hi
    unfold pyRange at hi
    simp only [List.mem_map, List.mem_range] at hi
    obtain ⟨j, hjm, rfl⟩ := hi
    exact (lt_ceilDiv_iff_mul_lt hk j).mp hjm
  have hpw : (pyRange bt.length k).Pairwise (· < ·) := by
    unfold pyRange
    rw [List.pairwise_map]
    exact (List.pairwise_lt_range _).imp
      (fun h => (Nat.mul_lt_mul_right (by omega : 0 < k)).mpr h)
  rw [List.pairwise_map]
  refine hpw.imp_of_mem ?_
  intro a b ha hb hab
  have hblen : b < bt.length := hmemlt b hb
  have halen : a < bt.length := lt_trans hab hblen
  rw [List.getD_eq_getElem _ _ halen, List.getD_eq_getElem _ _ hblen]
  exact List.pairwise_iff_get.mp hbt ⟨a, halen⟩ ⟨b, hblen⟩ hab

/-- Witness for generate_level_beat_selection at a concrete input. -/
theorem generate_level_beat_selection_witness :
    1 ≤ 1 ∧ (generate_level rand0 [0, 1, 2] 4 1).map ScheduledTarget.time
      = (pyRange ([0, 1, 2] : List ℚ).length 1).map
          (fun i => List.getD ([0, 1, 2] : List ℚ) i 0) :=
  ⟨by decide, (generate_level_beat_selection rand0 [0, 1, 2] 4 1 (by decide)).1⟩

theorem processEvents_only_taps (cfg : Cfg) :
    ∀ (events : List ℕ) (s : LoopState),
      (processEvents cfg events s).misses = s.misses ∧
      (processEvents cfg events s).current_tile_index = s.current_tile_index ∧
      (processEvents cfg events s).achieved_milestones = s.achieved_milestones := by
  intro events
  induction events with
  | nil => intro s; exact ⟨rfl, rfl, rfl⟩
  | cons k rest ih =>
    intro s
    simp only [processEvents, List.foldl_cons]
    exact ih _

/-- C10: a KEYDOWN whose key is not one of the four mapped lane keys
(the keycodes of q, w, e, r) leaves the tiles list, the score, the
animations queue, and (being inaccessible to the handler at all) the
miss count unchanged: handle_tile_tap returns its inputs untouched and
such an event is a no-op in the event-processing fold; in particular it
is not scored as a wrong tap. -/
theorem unmapped_key_no_effect (cfg : Cfg) (key : ℕ)
    (hkey : ¬(key = 113 ∨ key = 119 ∨ key = 101 ∨ key = 114))
    (tiles : List Tile) (score : ℤ) (animations : List Anim)
    (events : List ℕ) (s : LoopState) :
    handle_tile_tap cfg key tiles score animations = (tiles, score, animations) ∧
    processEvents cfg (key :: events) s = processEvents cfg events s ∧
    (processEvents cfg events s).misses = s.misses := by
  push_neg at hkey
  obtain ⟨h1, h2, h3, h4⟩ := hkey
  have hnone : key_to_column key = none := by
    unfold key_to_column
    rw [if_neg h1, if_neg h2, if_neg h3, if_neg h4]
  have hh : ∀ (ts : List Tile) (sc : ℤ) (an : List Anim),
      handle_tile_tap cfg key ts sc an = (ts, sc, an) := by
    intro ts sc an
    unfold handle_tile_tap
    rw [hnone]
  refine ⟨hh tiles score animations, ?_, (processEvents_only_taps cfg events s).1⟩
  simp only [processEvents, List.foldl_cons, hh]

/-- Witness for unmapped_key_no_effect at a concrete input (Escape). -/
theorem unmapped_key_no_effect_witness :
    ¬((27 : ℕ) = 113 ∨ (27 : ℕ) = 119 ∨ (27 : ℕ) = 101 ∨ (27 : ℕ) = 114) ∧
      handle_tile_tap {} 27 [] 0 [] = ([], 0, []) :=
  ⟨by decide,
    (unmapped_key_no_effect {} 27 (by decide) [] 0 [] []
      ⟨[], [], 0, 0, 0, []⟩).1⟩

theorem scanTiles_none (pressed : ℕ) (lo hi : ℚ) :
    ∀ ts : List Tile,
      (∀ t ∈ ts, ¬(t.column = pressed ∧ lo ≤ t.y ∧ t.y ≤ hi)) →
      scanTiles pressed lo hi ts = none := by
  intro ts
  induction ts with
  | nil => intro _; rfl
  | cons t ts ih =>
    intro h
    simp only [scanTiles]
    rw [if_neg (h t (by simp)), ih (fun u hu => h u (by simp [hu]))]

theorem scanTiles_first (pressed : ℕ) (lo hi : ℚ) :
    ∀ (ts : List Tile) (i : ℕ) (t : Tile), ts.get? i = some t →
      (t.column = pressed ∧ lo ≤ t.y ∧ t.y ≤ hi) →
      (∀ j u, j < i → ts.get? j = some u →
        ¬(u.column = pressed ∧ lo ≤ u.y ∧ u.y ≤ hi)) →
      scanTiles pressed lo hi ts = some (t, ts.eraseIdx i) := by
  intro ts
  induction ts with
  | nil => intro i t h; simp at h
  | cons u ts ih =>
    intro i t hget hp hfirst
    cases i with
    | zero =>
      obtain rfl := Option.some_inj.mp hget
      simp only [scanTiles]
      rw [if_pos hp]
      rfl
    | succ i =>
      have hu := hfirst 0 u (Nat.succ_pos i) rfl
      simp only [scanTiles]
      rw [if_neg hu, ih i t hget hp
        (fun j v hj hv => hfirst (j + 1) v (by omega) hv)]
      rfl

/-- C4: for a lane-press event (a key mapped to a lane) handle_tile_tap
scans the active tiles in insertion order and resolves exactly the first
tile whose column matches and whose y lies in
[hit_zone_y - 300, hit_zone_y + 300] (hit_zone_y = screen_height -
tile_height): that single tile is removed (the result is eraseIdx at the
first matching position, so exactly one tile fewer) and when no tile
matches the tile list is returned unchanged. -/
theorem handle_tile_tap_hit_exclusive (cfg : Cfg) (key pc : ℕ)
    (hkey : key_to_column key = some pc) (tiles : List Tile) (score : ℤ)
    (animations : List Anim) :
    ((∀ t ∈ tiles, ¬(t.column = pc ∧ (cfg.hit_zone_y : ℚ) - 300 ≤ t.y ∧
        t.y ≤ (cfg.hit_zone_y : ℚ) + 300)) →
      (handle_tile_tap cfg key tiles score animations).1 = tiles) ∧
    (∀ i t, tiles.get? i = some t →
      (t.column = pc ∧ (cfg.hit_zone_y : ℚ) - 300 ≤ t.y ∧
        t.y ≤ (cfg.hit_zone_y : ℚ) + 300) →
      (∀ j u, j < i → tiles.get? j = some u →
        ¬(u.column = pc ∧ (cfg.hit_zone_y : ℚ) - 300 ≤ u.y ∧
          u.y ≤ (cfg.hit_zone_y : ℚ) + 300)) →
      (handle_tile_tap cfg key tiles score animations).1 = tiles.eraseIdx i ∧
        (handle_tile_tap cfg key tiles score animations).1.length + 1
          = tiles.length) := by
  constructor
  · intro hnone
    simp [handle_tile_tap, hkey, scanTiles_none pc _ _ tiles hnone]
  · intro i t hget hp hfirst
    have hi : i < tiles.length := by
      by_contra hcon
      rw [List.get?_eq_none.mpr (by omega)] at hget
      exact Option.noConfusion hget
    have hscan := scanTiles_first pc _ _ tiles i t hget hp hfirst
    constructor
    · simp [handle_tile_tap, hkey, hscan]
    · simp [handle_tile_tap, hkey, hscan, List.length_eraseIdx, hi]
      omega

/-- Witness for handle_tile_tap_hit_exclusive at a concrete input. -/
theorem handle_tile_tap_hit_exclusive_witness :
    key_to_column 113 = some 0 ∧
      (handle_tile_tap {} 113 [tileA] 0 []).1 = [tileA].eraseIdx 0 ∧
      (handle_tile_tap {} 113 [tileA] 0 []).1.length + 1 = [tileA].length :=
  ⟨by decide,
    (handle_tile_tap_hit_exclusive {} 113 0 (by decide) [tileA] 0 []).2 0 tileA rfl
      (by refine ⟨rfl, ?_, ?_⟩ <;> norm_num [tileA, Cfg.hit_zone_y])
      (fun j u hj _ => absurd hj (Nat.not_lt_zero j))⟩

theorem countOOB_cons_pos {sh : ℤ} {t : Tile} (h : (sh : ℚ) < t.y) (ts : List Tile) :
    countOOB sh (t :: ts) = countOOB sh ts + 1 := by
  simp [countOOB, h]

theorem countOOB_cons_neg {sh : ℤ} {t : Tile} (h : ¬ (sh : ℚ) < t.y) (ts : List Tile) :
    countOOB sh (t :: ts) = countOOB sh ts := by
  simp [countOOB, h]

theorem survivorTiles_cons_pos {sh : ℤ} {t : Tile} (h : (sh : ℚ) < t.y)
    (ts : List Tile) : survivorTiles sh (t :: ts) = survivorTiles sh ts := by
  simp [survivorTiles, h]

theorem survivorTiles_cons_neg {sh : ℤ} {t : Tile} (h : ¬ (sh : ℚ) < t.y)
    (ts : List Tile) : survivorTiles sh (t :: ts) = t :: survivorTiles sh ts := by
  simp [survivorTiles, h, not_lt.mp h]

theorem detect_missed_tiles_spec (sh : ℤ) (mm : ℕ) :
    ∀ (ts : List Tile) (m : ℕ) (an : List Anim), m < mm →
      ((mm ≤ m + countOOB sh ts →
        ∃ ts' an', detect_missed_tiles sh mm ts m an = .gameOver ts' mm an') ∧
      (m + countOOB sh ts < mm →
        ∃ an', detect_missed_tiles sh mm ts m an
          = .ok (survivorTiles sh ts) (m + countOOB sh ts) an')) := by
  intro ts
  induction ts with
  | nil =>
    intro m an hm
    constructor
    · intro h
      exact absurd h (by simp [countOOB]; omega)
    · intro _
      exact ⟨an, by simp [detect_missed_tiles, survivorTiles, countOOB]⟩
  | cons t ts ih =>
    intro m an hm
    by_cases hOOB : (sh : ℚ) < t.y
    · rw [countOOB_cons_pos hOOB, survivorTiles_cons_pos hOOB]
      by_cases hstop : mm ≤ m + 1
      · have hmm : mm = m + 1 := by omega
        constructor
        · intro _
          refine ⟨ts, an ++ [boundaryMissAnim t], ?_⟩
          simp only [detect_missed_tiles]
          rw [if_pos hOOB, if_pos hstop, hmm]
        · intro h
          exact absurd h (by omega)
      · push_neg at hstop
        have ihs := ih (m + 1) (an ++ [boundaryMissAnim t]) hstop
        constructor
        · intro h
          obtain ⟨ts', an', hd⟩ := ihs.1 (by omega)
          refine ⟨ts', an', ?_⟩
          simp only [detect_missed_tiles]
          rw [if_pos hOOB, if_neg (by omega : ¬ mm ≤ m + 1), hd]
        · intro h
          obtain ⟨an', hd⟩ := ihs.2 (by omega)
          refine ⟨an', ?_⟩
          rw [show m + (countOOB sh ts + 1) = m + 1 + countOOB sh ts from by omega]
          simp only [detect_missed_tiles]
          rw [if_pos hOOB, if_neg (by omega : ¬ mm ≤ m + 1), hd]
    · rw [countOOB_cons_neg hOOB, survivorTiles_cons_neg hOOB]
      have ihs := ih m an hm
      constructor
      · intro h
        obtain ⟨ts', an', hd⟩ := ihs.1 h
        refine ⟨t :: ts', an', ?_⟩
        simp only [detect_missed_tiles]
        rw [if_neg hOOB, hd]
      · intro h
        obtain ⟨an', hd⟩ := ihs.2 h
        refine ⟨an', ?_⟩
        simp only [detect_missed_tiles]
        rw [if_neg hOOB, hd]

theorem frame_score_eq (cfg : Cfg) (level : List ScheduledTarget)
    (inp : FrameInput) (s : LoopState) :
    (main_game_loop_frame cfg level inp s).stateOf.score
      = (processEvents cfg inp.events s).score := by
  simp only [main_game_loop_frame]
  set s1 := processEvents cfg inp.events s with hs1
  set moved := (spawn_tiles cfg level inp.current_time s1.current_tile_index
      s1.tiles).1.map (fun t => t.update inp.delta_time) with hmoved
  cases hdet : detect_missed_tiles cfg.screen_height 5 moved s1.misses s1.animations with
  | ok ts' m' a' =>
    dsimp only
    by_cases hb : inp.music_busy = false ∧ ts' = []
    · rw [if_pos hb]
      rfl
    · rw [if_neg hb]
      rfl
  | gameOver ts' m' a' => rfl

/-- C2: a Hit (mapped key, scan finds a tile) adds exactly 1 to score; a
wrong tap (mapped key, scan finds none) subtracts exactly 1; key events
never change the miss count (the handler is not given it); boundary
detection adds exactly the number of fallen tiles to the miss count (one
boundary miss adds exactly 1) and the score after any frame equals the
score after its event processing, so boundary misses never change the
score.  Scenario: from score 0 / misses 0, a Hit gives score 1, a
following wrong tap gives score 0, and a boundary miss gives misses 1
with score still 0. -/
theorem score_miss_bookkeeping :
    (∀ (cfg : Cfg) (key pc : ℕ) (tiles : List Tile) (score : ℤ)
        (animations : List Anim) (t : Tile) (rest : List Tile),
      key_to_column key = some pc →
      scanTiles pc ((cfg.hit_zone_y : ℚ) - 300) ((cfg.hit_zone_y : ℚ) + 300) tiles
        = some (t, rest) →
      (handle_tile_tap cfg key tiles score animations).2.1 = score + 1) ∧
    (∀ (cfg : Cfg) (key pc : ℕ) (tiles : List Tile) (score : ℤ)
        (animations : List Anim),
      key_to_column key = some pc →
      scanTiles pc ((cfg.hit_zone_y : ℚ) - 300) ((cfg.hit_zone_y : ℚ) + 300) tiles
        = none →
      (handle_tile_tap cfg key tiles score animations).2.1 = score - 1) ∧
    (∀ (cfg : Cfg) (events : List ℕ) (s : LoopState),
      (processEvents cfg events s).misses = s.misses) ∧
    (∀ (sh : ℤ) (mm : ℕ) (ts : List Tile) (m : ℕ) (an : List Anim),
      m + countOOB sh ts < mm →
      ∃ an', detect_missed_tiles sh mm ts m an
        = .ok (survivorTiles sh ts) (m + countOOB sh ts) an') ∧
    (∀ (cfg : Cfg) (level : List ScheduledTarget) (inp : FrameInput)
        (s : LoopState),
      (main_game_loop_frame cfg level inp s).stateOf.score
        = (processEvents cfg inp.events s).score) ∧
    ((handle_tile_tap {} 113 [tileA, tileB] 0 []).1 = [tileB] ∧
      (handle_tile_tap {} 113 [tileA, tileB] 0 []).2.1 = 0 + 1 ∧
      (handle_tile_tap {} 113 [tileB] 1 []).2.1 = 1 - 1 ∧
      detect_missed_tiles 600 5 [tileB.update (1/5)] 0 []
        = .ok [] (0 + 1) [boundaryMissAnim (tileB.update (1/5))]) := by
  have hscanA : scanTiles 0 ((Cfg.hit_zone_y {} : ℚ) - 300)
      ((Cfg.hit_zone_y {} : ℚ) + 300) [tileA, tileB] = some (tileA, [tileB]) := by
    simp only [scanTiles]
    rw [if_pos]
    refine ⟨rfl, ?_, ?_⟩ <;> norm_num [tileA, Cfg.hit_zone_y]
  have hscanB : scanTiles 0 ((Cfg.hit_zone_y {} : ℚ) - 300)
      ((Cfg.hit_zone_y {} : ℚ) + 300) [tileB] = none := by
    have hnc : ¬(tileB.column = 0 ∧ (Cfg.hit_zone_y {} : ℚ) - 300 ≤ tileB.y ∧
        tileB.y ≤ (Cfg.hit_zone_y {} : ℚ) + 300) := by
      intro hcon
      exact absurd hcon.1 (by norm_num [tileB])
    simp only [scanTiles]
    rw [if_neg hnc]
  refine ⟨?_, ?_, ?_, ?_, ?_, ?_, ?_, ?_, ?_⟩
  · intro cfg key pc tiles score animations t rest hkey hscan
    simp [handle_tile_tap, hkey, hscan]
  · intro cfg key pc tiles score animations hkey hscan
    simp [handle_tile_tap, hkey, hscan]
  · intro cfg events s
    exact (processEvents_only_taps cfg events s).1
  · intro sh mm ts m an h
    exact (detect_missed_tiles_spec sh mm ts m an (by omega)).2 h
  · exact frame_score_eq
  · simp [handle_tile_tap, key_to_column, hscanA]
  · simp [handle_tile_tap, key_to_column, hscanA]
  · simp [handle_tile_tap, key_to_column, hscanB]
  · have hy : ((600 : ℤ) : ℚ) < (tileB.update (1/5)).y := by
      norm_num [tileB, Tile.update]
    simp only [detect_missed_tiles]
    rw [if_pos hy, if_neg (by omega : ¬ (5 : ℕ) ≤ 0 + 1)]
    rfl

/-- Witness for score_miss_bookkeeping at a concrete input. -/
theorem score_miss_bookkeeping_witness :
    key_to_column 113 = some 0 ∧
      (handle_tile_tap {} 113 [tileA, tileB] 5 []).2.1 = 5 + 1 := by
  refine ⟨by decide, ?_⟩
  have hscanA : scanTiles 0 ((Cfg.hit_zone_y {} : ℚ) - 300)
      ((Cfg.hit_zone_y {} : ℚ) + 300) [tileA, tileB] = some (tileA, [tileB]) := by
    simp only [scanTiles]
    rw [if_pos]
    refine ⟨rfl, ?_, ?_⟩ <;> norm_num [tileA, Cfg.hit_zone_y]
  exact score_miss_bookkeeping.1 {} 113 0 [tileA, tileB] 5 [] tileA [tileB]
    (by decide) hscanA

/-- C3: with the loop's hardcoded max_misses = 5, for a frame started
with misses < 5: the session becomes terminal with reason maxMisses
exactly when this frame's boundary misses bring the count to 5, and then
the terminal count is exactly 5 (the transition happens immediately at
the boundary miss that reaches the maximum, not before); it becomes
terminal with reason songEnded exactly when the count stays below 5, the
music has stopped and no tile survives; in every other case the frame
continues with misses = old + boundary misses, still below 5 — so no
other gameplay condition (wrong taps, negative score) ends the session. -/
theorem session_termination (cfg : Cfg) (level : List ScheduledTarget)
    (inp : FrameInput) (s : LoopState) (hm : s.misses < 5) :
    ((∃ s', main_game_loop_frame cfg level inp s = .terminal .maxMisses s' ∧
        s'.misses = 5) ↔
      5 ≤ s.misses + countOOB cfg.screen_height (frameMoved cfg level inp s)) ∧
    ((∃ s', main_game_loop_frame cfg level inp s = .terminal .songEnded s') ↔
      (s.misses + countOOB cfg.screen_height (frameMoved cfg level inp s) < 5 ∧
        inp.music_busy = false ∧
        survivorTiles cfg.screen_height (frameMoved cfg level inp s) = [])) ∧
    (∀ s', main_game_loop_frame cfg level inp s = .next s' →
      s'.misses = s.misses + countOOB cfg.screen_height (frameMoved cfg level inp s) ∧
        s'.misses < 5) ∧
    ((¬ 5 ≤ s.misses + countOOB cfg.screen_height (frameMoved cfg level inp s) ∧
        ¬(inp.music_busy = false ∧
          survivorTiles cfg.screen_height (frameMoved cfg level inp s) = [])) →
      ∃ s', main_game_loop_frame cfg level inp s = .next s') := by
  have hs1m : (processEvents cfg inp.events s).misses = s.misses :=
    (processEvents_only_taps cfg inp.events s).1
  simp only [main_game_loop_frame, frameMoved]
  set s1 := processEvents cfg inp.events s with hs1
  set moved := ((spawn_tiles cfg level inp.current_time s1.current_tile_index
      s1.tiles).1).map (fun t => t.update inp.delta_time) with hmoved
  have hdm := detect_missed_tiles_spec cfg.screen_height 5 moved s1.misses
    s1.animations (by rw [hs1m]; exact hm)
  by_cases hc : 5 ≤ s.misses + countOOB cfg.screen_height moved
  · obtain ⟨ts', an', hd⟩ := hdm.1 (by rw [hs1m]; exact hc)
    rw [hd]
    refine ⟨⟨fun _ => hc, fun _ => ⟨_, rfl, rfl⟩⟩, ?_, ?_, ?_⟩
    · constructor
      · rintro ⟨s', hs'⟩
        exact absurd hs' (by simp)
      · rintro ⟨hlt, _⟩
        exact absurd hlt (by omega)
    · intro s' hs'
      exact absurd hs' (by simp)
    · rintro ⟨hnot, _⟩
      exact absurd hc hnot
  · push_neg at hc
    obtain ⟨an', hd⟩ := hdm.2 (by rw [hs1m]; exact hc)
    rw [hd]
    dsimp only
    by_cases hb : inp.music_busy = false ∧
        survivorTiles cfg.screen_height moved = []
    · rw [if_pos hb]
      refine ⟨?_, ?_, ?_, ?_⟩
      · constructor
        · rintro ⟨s', hs', _⟩
          exact absurd hs' (by simp)
        · intro h
          exact absurd h (by omega)
      · constructor
        · intro _
          exact ⟨hc, hb.1, hb.2⟩
        · intro _
          exact ⟨_, rfl⟩
      · intro s' hs'
        exact absurd hs' (by simp)
      · rintro ⟨_, hnot⟩
        exact absurd hb hnot
    · rw [if_neg hb]
      refine ⟨?_, ?_, ?_, ?_⟩
      · constructor
        · rintro ⟨s', hs', _⟩
          exact absurd hs' (by simp)
        · intro h
          exact absurd h (by omega)
      · constructor
        · rintro ⟨s', hs'⟩
          exact absurd hs' (by simp)
        · rintro ⟨_, hbb, hss⟩
          exact absurd ⟨hbb, hss⟩ hb
      · intro s' hs'
        obtain rfl := (StepResult.next.injEq _ _).mp hs'
        dsimp only
        rw [hs1m]
        exact ⟨rfl, by omega⟩
      · intro _
        exact ⟨_, rfl⟩

/-- Witness for session_termination at a concrete input. -/
theorem session_termination_witness :
    sMiss4.misses < 5 ∧
      ((∃ s', main_game_loop_frame {} [] inp0 sMiss4 = .terminal .maxMisses s' ∧
          s'.misses = 5) ↔
        5 ≤ sMiss4.misses +
          countOOB ({} : Cfg).screen_height (frameMoved {} [] inp0 sMiss4)) :=
  ⟨by decide, (session_termination {} [] inp0 sMiss4 (by decide)).1⟩

theorem takeWhile_length_le {α : Type} (p : α → Bool) :
    ∀ l : List α, (l.takeWhile p).length ≤ l.length := by
  intro l
  induction l with
  | nil => simp
  | cons a l ih =>
    by_cases ha : p a = true
    · rw [List.takeWhile_cons_of_pos ha]
      simpa using ih
    · rw [List.takeWhile_cons_of_neg (by simpa using ha)]
      simp

theorem take_takeWhile_length {α : Type} (p : α → Bool) :
    ∀ l : List α, l.take (l.takeWhile p).length = l.takeWhile p := by
  intro l
  induction l with
  | nil => simp
  | cons a l ih =>
    by_cases ha : p a = true
    · rw [List.takeWhile_cons_of_pos ha]
      simpa using ih
    · rw [List.takeWhile_cons_of_neg (by simpa using ha)]
      simp

theorem spawn_tiles_eq (cfg : Cfg) (level : List ScheduledTarget) (t : ℚ) :
    ∀ idx tiles, spawn_tiles cfg level t idx tiles
      = (tiles ++ ((level.drop idx).takeWhile
            (fun g => decide (g.time ≤ t))).map (mkSpawnTile cfg),
         idx + ((level.drop idx).takeWhile
            (fun g => decide (g.time ≤ t))).length) := by
  intro idx tiles
  induction idx, tiles using spawn_tiles.induct cfg level t with
  | case1 idx tiles h hle ih =>
    rw [spawn_tiles]
    simp only [h, hle, dif_pos, if_pos]
    rw [ih, List.drop_eq_getElem_cons h,
      List.takeWhile_cons_of_pos (by simpa using hle)]
    simp only [Prod.mk.injEq, List.map_cons, List.length_cons]
    constructor
    · simp [List.append_assoc]
    · omega
  | case2 idx tiles h hle =>
    rw [spawn_tiles]
    simp only [h, dif_pos]
    rw [if_neg hle, List.drop_eq_getElem_cons h,
      List.takeWhile_cons_of_neg (by simpa using hle)]
    simp
  | case3 idx tiles h =>
    rw [spawn_tiles]
    simp only [h, dif_neg]
    rw [List.drop_eq_nil_of_le (by omega)]
    simp

theorem takeWhile_le_iff {t : ℚ} :
    ∀ l : List ScheduledTarget, l.Pairwise (fun a b => a.time ≤ b.time) →
      ∀ k, (k < (l.takeWhile (fun g => decide (g.time ≤ t))).length ↔
        ∃ g, l.get? k = some g ∧ g.time ≤ t) := by
  intro l
  induction l with
  | nil => intro _ k; simp
  | cons a l ih =>
    intro hpw k
    by_cases ha : a.time ≤ t
    · rw [List.takeWhile_cons_of_pos (by simpa using ha)]
      cases k with
      | zero => simp [ha]
      | succ k =>
        simp only [List.length_cons, Nat.succ_lt_succ_iff, List.get?_cons_succ]
        exact ih hpw.of_cons k
    · rw [List.takeWhile_cons_of_neg (by simpa using ha)]
      simp only [List.length_nil]
      constructor
      · intro h
        exact absurd h (Nat.not_lt_zero k)
      · rintro ⟨g, hg, hgt⟩
        cases k with
        | zero =>
          obtain rfl := Option.some_inj.mp hg
          exact absurd hgt ha
        | succ k =>
          rw [List.get?_cons_succ] at hg
          have hmem : g ∈ l := List.get?_mem hg
          have hle := (List.pairwise_cons.mp hpw).1 g hmem
          exact absurd (le_trans hle hgt) ha

theorem spawn_frames_spec (cfg : Cfg) (level : List ScheduledTarget)
    (hlev : level.Pairwise (fun a b => a.time ≤ b.time)) :
    ∀ (ts : List ℚ) (idx : ℕ) (tiles : List Tile), idx ≤ level.length →
      tiles = (level.take idx).map (mkSpawnTile cfg) →
      ((spawn_frames cfg level ts (tiles, idx)).2 ≤ level.length ∧
        (spawn_frames cfg level ts (tiles, idx)).1
          = (level.take (spawn_frames cfg level ts (tiles, idx)).2).map
              (mkSpawnTile cfg) ∧
        (∀ j g, level.get? j = some g →
          (j < (spawn_frames cfg level ts (tiles, idx)).2 ↔
            (j < idx ∨ ∃ u ∈ ts, g.time ≤ u)))) := by
  intro ts
  induction ts with
  | nil =>
    intro idx tiles hidx htiles
    simp only [spawn_frames]
    refine ⟨hidx, htiles, ?_⟩
    intro j g _
    simp
  | cons t0 ts' ih =>
    intro idx tiles hidx htiles
    have hdrop : ((level.drop idx).takeWhile
        (fun g => decide (g.time ≤ t0))).length ≤ level.length - idx := by
      have h1 := takeWhile_length_le (fun g => decide (g.time ≤ t0)) (level.drop idx)
      simpa [List.length_drop] using h1
    have hstep : spawn_tiles cfg level t0 idx tiles
        = (tiles ++ ((level.drop idx).takeWhile
              (fun g => decide (g.time ≤ t0))).map (mkSpawnTile cfg),
           idx + ((level.drop idx).takeWhile
              (fun g => decide (g.time ≤ t0))).length) :=
      spawn_tiles_eq cfg level t0 idx tiles
    have hidx1 : idx + ((level.drop idx).takeWhile
        (fun g => decide (g.time ≤ t0))).length ≤ level.length := by omega
    have htiles1 : tiles ++ ((level.drop idx).takeWhile
          (fun g => decide (g.time ≤ t0))).map (mkSpawnTile cfg)
        = (level.take (idx + ((level.drop idx).takeWhile
            (fun g => decide (g.time ≤ t0))).length)).map (mkSpawnTile cfg) := by
      rw [List.take_add, List.map_append, htiles, take_takeWhile_length]
    have hiff : ∀ j g, level.get? j = some g →
        (j < idx + ((level.drop idx).takeWhile
            (fun g => decide (g.time ≤ t0))).length ↔ (j < idx ∨ g.time ≤ t0)) := by
      intro j g hg
      by_cases hj : j < idx
      · constructor
        · intro _
          exact Or.inl hj
        · intro _
          omega
      · push_neg at hj
        have hpw' : (level.drop idx).Pairwise (fun a b => a.time ≤ b.time) :=
          hlev.sublist (List.drop_sublist idx level)
        have hgd : (level.drop idx).get? (j - idx) = some g := by
          rw [List.get?_drop]
          rw [show idx + (j - idx) = j from by omega]
          exact hg
        have htw := takeWhile_le_iff (t := t0) (level.drop idx) hpw' (j - idx)
        constructor
        · intro h
          refine Or.inr ?_
          have : j - idx < ((level.drop idx).takeWhile
              (fun g => decide (g.time ≤ t0))).length := by omega
          obtain ⟨g', hg', hgt'⟩ := htw.mp this
          rw [hgd] at hg'
          obtain rfl := Option.some_inj.mp hg'
          exact hgt'
        · rintro (h | h)
          · omega
          · have : j - idx < ((level.drop idx).takeWhile
                (fun g => decide (g.time ≤ t0))).length :=
              htw.mpr ⟨g, hgd, h⟩
            omega
    simp only [spawn_frames, hstep]
    obtain ⟨ha, hb, hcc⟩ := ih
      (idx + ((level.drop idx).takeWhile (fun g => decide (g.time ≤ t0))).length)
      (tiles ++ ((level.drop idx).takeWhile
          (fun g => decide (g.time ≤ t0))).map (mkSpawnTile cfg))
      hidx1 htiles1
    refine ⟨ha, hb, ?_⟩
    intro j g hg
    rw [hcc j g hg, hiff j g hg]
    constructor
    · rintro ((h | h) | ⟨u, hu, hgu⟩)
      · exact Or.inl h
      · exact Or.inr ⟨t0, by simp, h⟩
      · exact Or.inr ⟨u, by simp [hu], hgu⟩
    · rintro (h | ⟨u, hu, hgu⟩)
      · exact Or.inl (Or.inl h)
      · rcases List.mem_cons.mp hu with rfl | hu'
        · exact Or.inl (Or.inr hgu)
        · exact Or.inr ⟨u, hu', hgu⟩

/-- C7: for any sequence of ticks with non-decreasing elapsed times over
a schedule with non-decreasing times, the spawn phase (the
tile-generation while loop, iterated over the frames' elapsed times)
spawns each ScheduledTarget at most once: the accumulated spawned tiles
are exactly the consumed schedule prefix, in schedule order (ascending
time, generation order for ties); a target is spawned by the end of the
run exactly when its time is ≤ some elapsed time of the run; and every
spawned tile starts at verticalPosition = -tile_height with speed =
screen_height / hit_time. -/
theorem spawn_monotone (cfg : Cfg) (level : List ScheduledTarget) (ts : List ℚ)
    (hlev : level.Pairwise (fun a b => a.time ≤ b.time))
    (hts : ts.Pairwise (· ≤ ·)) :
    (spawn_frames cfg level ts ([], 0)).2 ≤ level.length ∧
    (spawn_frames cfg level ts ([], 0)).1
      = (level.take (spawn_frames cfg level ts ([], 0)).2).map (mkSpawnTile cfg) ∧
    (∀ j g, level.get? j = some g →
      (j < (spawn_frames cfg level ts ([], 0)).2 ↔ ∃ u ∈ ts, g.time ≤ u)) ∧
    (∀ tile ∈ (spawn_frames cfg level ts ([], 0)).1,
      tile.y = -(cfg.tile_height : ℚ) ∧
        tile.tile_speed = (cfg.screen_height : ℚ) / cfg.hit_time) := by
  obtain ⟨h1, h2, h3⟩ := spawn_frames_spec cfg level hlev ts 0 [] (by omega) (by simp)
  refine ⟨h1, h2, ?_, ?_⟩
  · intro j g hg
    rw [h3 j g hg]
    simp
  · intro tile htile
    rw [h2] at htile
    simp only [List.mem_map] at htile
    obtain ⟨g, _, rfl⟩ := htile
    exact ⟨rfl, rfl⟩

/-- Witness for spawn_monotone at a concrete input. -/
theorem spawn_monotone_witness :
    ([⟨1, 0⟩, ⟨2, 1⟩] : List ScheduledTarget).Pairwise
        (fun a b => a.time ≤ b.time) ∧
      ([0, 1, 3] : List ℚ).Pairwise (· ≤ ·) ∧
      (spawn_frames {} [⟨1, 0⟩, ⟨2, 1⟩] [0, 1, 3] ([], 0)).2
        ≤ ([⟨1, 0⟩, ⟨2, 1⟩] : List ScheduledTarget).length :=
  ⟨by norm_num [List.pairwise_cons], by norm_num [List.pairwise_cons],
    (spawn_monotone {} [⟨1, 0⟩, ⟨2, 1⟩] [0, 1, 3]
      (by norm_num [List.pairwise_cons]) (by norm_num [List.pairwise_cons])).1⟩

/-- C8, counterexample.  The claim says a negative delta_time is clamped
to zero so that a tick leaves every tile's verticalPosition unchanged.
Neither Tile.update nor the delta_time computation in main_game_loop
contains any clamp: update adds tile_speed * delta_time as-is, so a
freshly spawned tile (y = -100, speed 300) ticked with delta_time = -1
moves upward to y = -400 instead of staying put. -/
theorem C8_counterexample :
    ((Tile.init 0 0 300 200 100 600 4).update (-1)).y = -400 ∧
      (Tile.init 0 0 300 200 100 600 4).y = -100 ∧
      ((Tile.init 0 0 300 200 100 600 4).update (-1)).y
        ≠ (Tile.init 0 0 300 200 100 600 4).y := by
  refine ⟨?_, ?_, ?_⟩ <;> norm_num [Tile.init, Tile.update]

/-- C8, amended.  A tick applies delta_time exactly as given (no
clamping and no error): verticalPosition changes by
tile_speed * delta_time, all other fields are unchanged, and for a
negative delta_time with positive speed the target moves upward
(verticalPosition strictly decreases) rather than staying unchanged. -/
theorem tile_update_no_clamp (t : Tile) (dt : ℚ) :
    (t.update dt).y = t.y + t.tile_speed * dt ∧
    (t.update dt).column = t.column ∧
    (t.update dt).tile_speed = t.tile_speed ∧
    (t.update dt).tile_height = t.tile_height ∧
    (dt < 0 → 0 < t.tile_speed → (t.update dt).y < t.y) := by
  refine ⟨rfl, rfl, rfl, rfl, ?_⟩
  intro hdt hsp
  have hneg : t.tile_speed * dt < 0 := mul_neg_of_pos_of_neg hsp hdt
  simp only [Tile.update]
  linarith

/-- Witness for tile_update_no_clamp at a concrete input. -/
theorem tile_update_no_clamp_witness :
    ((-1 : ℚ) < 0 ∧ 0 < (Tile.init 0 0 300 200 100 600 4).tile_speed) ∧
      ((Tile.init 0 0 300 200 100 600 4).update (-1)).y
        < (Tile.init 0 0 300 200 100 600 4).y :=
  ⟨⟨by norm_num, by norm_num [Tile.init]⟩,
    (tile_update_no_clamp (Tile.init 0 0 300 200 100 600 4) (-1)).2.2.2.2
      (by norm_num) (by norm_num [Tile.init])⟩

theorem milestoneCount_append_milestone (mm m : ℕ) (an : List Anim) (x y : ℤ)
    (st d : ℚ) :
    milestoneCount mm (an ++ [Anim.milestone m x y st d])
      = milestoneCount mm an + (if m = mm then 1 else 0) := by
  by_cases hm : m = mm
  · simp [milestoneCount, List.filter_append, hm]
  · simp [milestoneCount, List.filter_append, hm]

theorem check_milestones_step_pres (cfg : Cfg) (now : ℚ) (score : ℤ) (mm : ℕ) :
    ∀ (st : List ℕ × List Anim) (m : ℕ),
      (milestoneCount mm st.2 ≤ 1 ∧ (mm ∉ st.1 → milestoneCount mm st.2 = 0)) →
      (milestoneCount mm (check_milestones_step cfg now score st m).2 ≤ 1 ∧
        (mm ∉ (check_milestones_step cfg now score st m).1 →
          milestoneCount mm (check_milestones_step cfg now score st m).2 = 0)) := by
  intro st m hP
  unfold check_milestones_step
  by_cases hcond : (m : ℤ) ≤ score ∧ m ∉ st.1
  · rw [if_pos hcond]
    simp only [milestoneCount_append_milestone]
    by_cases hm : m = mm
    · subst hm
      have h0 : milestoneCount m st.2 = 0 := hP.2 hcond.2
      constructor
      · simp [h0]
      · intro hnot
        exact absurd (List.mem_append_right st.1 (by simp)) hnot
    · rw [if_neg hm]
      simp only [Nat.add_zero]
      constructor
      · exact hP.1
      · intro hnot
        exact hP.2 (fun hmem => hnot (List.mem_append_left _ hmem))
  · rw [if_neg hcond]
    exact hP

theorem check_milestones_fold_pres (cfg : Cfg) (now : ℚ) (score : ℤ) (mm : ℕ) :
    ∀ (L : List ℕ) (st : List ℕ × List Anim),
      (milestoneCount mm st.2 ≤ 1 ∧ (mm ∉ st.1 → milestoneCount mm st.2 = 0)) →
      (milestoneCount mm (L.foldl (check_milestones_step cfg now score) st).2 ≤ 1 ∧
        (mm ∉ (L.foldl (check_milestones_step cfg now score) st).1 →
          milestoneCount mm (L.foldl (check_milestones_step cfg now score) st).2
            = 0)) := by
  intro L
  induction L with
  | nil => intro st hP; exact hP
  | cons m L ih =>
    intro st hP
    rw [List.foldl_cons]
    exact ih _ (check_milestones_step_pres cfg now score mm st m hP)

/-- C9: over any session history (any sequence of per-frame elapsed
times and scores, in particular score histories that cross a threshold,
drop below it and cross it again), the milestone phase emits at most one
Milestone banner per threshold, ever: a threshold entering
achieved_milestones is never emitted again.  milestones_run folds the
loop's milestone check over the history, accumulating every emission
undecayed, so the count below is the total number of emissions. -/
theorem milestone_idempotent (cfg : Cfg) (history : List (ℚ × ℤ)) (mm : ℕ) :
    milestoneCount mm (milestones_run cfg history).2 ≤ 1 := by
  suffices h : ∀ (hist : List (ℚ × ℤ)) (st : List ℕ × List Anim),
      (milestoneCount mm st.2 ≤ 1 ∧ (mm ∉ st.1 → milestoneCount mm st.2 = 0)) →
      milestoneCount mm
        (hist.foldl (fun st h => check_milestones cfg h.1 h.2 st.1 st.2) st).2 ≤ 1 by
    exact h history ([], []) (by simp [milestoneCount])
  intro hist
  induction hist with
  | nil => intro st hP; exact hP.1
  | cons p hist ih =>
    intro st hP
    rw [List.foldl_cons]
    have hstep := check_milestones_fold_pres cfg p.1 p.2 mm MILESTONES st hP
    apply ih
    constructor
    · exact hstep.1
    · exact hstep.2
